import Mathlib

/-!
A shallow embedding of the call-center analytics pipeline
(`src/data/cleaner.py`, `src/data/validator.py`, `src/analysis/kpi.py`,
`src/analysis/correlation.py`, `src/analysis/statistics.py`).

Tables are modelled column-major: a column is a list of cells, a missing
cell (`NaN`) is `none`.  Floating-point numbers are modelled by `Rat`;
a value that the source computes as IEEE `NaN` is modelled by `none`
(`Option Rat`).  The relevant IEEE facts used throughout: any comparison
with `NaN` is false, `0/0` and `x/NaN` are `NaN`, and pandas reductions
(`mean`, `std`, `sum`, ...) skip `NaN` cells.  A standard deviation is
represented by the variance it is the square root of (same definedness,
same zero set, and `|x| / sqrt v > thr` iff `thr^2 * v < x^2` for a
nonnegative threshold), which keeps every definition inside `Rat`.
-/

namespace CallCenter

/-- One cell of a table: numeric, categorical or boolean; `none` is NaN/null. -/
inductive Cell where
  | num (v : Option Rat)
  | cat (v : Option String)
  | bool (v : Bool)
deriving DecidableEq, Repr

/-- A column's data, keeping the pandas dtype distinction (`select_dtypes`
distinguishes numeric, object and bool columns). -/
inductive ColData where
  | num (vals : List (Option Rat))
  | cat (vals : List (Option String))
  | bool (vals : List Bool)
deriving DecidableEq, Repr

def ColData.length : ColData → Nat
  | .num vs => vs.length
  | .cat vs => vs.length
  | .bool vs => vs.length

def ColData.cellAt : ColData → Nat → Cell
  | .num vs, i => .num (vs.getD i none)
  | .cat vs, i => .cat (vs.getD i none)
  | .bool vs, i => .bool (vs.getD i false)

/-- A pandas DataFrame: named, ordered, typed columns over `nrows` rows. -/
structure Table where
  nrows : Nat
  cols : List (String × ColData)
deriving DecidableEq, Repr

/-- DataFrame invariant: every column has exactly `nrows` cells. -/
def Table.wf (t : Table) : Prop := ∀ p ∈ t.cols, p.2.length = t.nrows

instance (t : Table) : Decidable t.wf := by
  unfold Table.wf; infer_instance

/-- `c in df.columns` followed by `df[c]`. -/
def getCol (t : Table) (c : String) : Option ColData :=
  (t.cols.find? (fun p => p.1 == c)).map (fun p => p.2)

/-- `c in df.columns`. -/
def hasCol (t : Table) (c : String) : Bool := (getCol t c).isSome

/-- The column `c` viewed as numeric data, when `pd.api.types.is_numeric_dtype`
holds of it (bool dtype counts as numeric in pandas and coerces to 0/1
under arithmetic); `none` when the column is absent or non-numeric. -/
def numColVals (t : Table) (c : String) : Option (List (Option Rat)) :=
  match getCol t c with
  | some (.num vs) => some vs
  | some (.bool vs) => some (vs.map (fun b => some (if b then (1 : Rat) else 0)))
  | _ => none

/-- `df.select_dtypes(include=[np.number])`: the numeric (non-bool) columns. -/
def numericColumns (t : Table) : List (String × List (Option Rat)) :=
  t.cols.filterMap (fun p => match p.2 with
    | .num vs => some (p.1, vs)
    | _ => none)

/-- The non-missing values of a numeric column (pandas reductions skip NaN). -/
def nonMissing (vs : List (Option Rat)) : List Rat := vs.filterMap id

/-- `Series.sum()`: NaN cells are skipped and an all-NaN column sums to 0. -/
def colSum (vs : List (Option Rat)) : Rat := (nonMissing vs).sum

/-- `Series.mean()`: mean of the non-missing values, NaN (`none`) when there
are none. -/
def colMean (vs : List (Option Rat)) : Option Rat :=
  let xs := nonMissing vs
  if xs.length = 0 then none else some (xs.sum / (xs.length : Rat))

/-- Mean as a plain `Rat`; only used where at least one value is present
(`Rat` division by zero returning 0 is then never exercised). -/
def meanD (vs : List (Option Rat)) : Rat :=
  (nonMissing vs).sum / ((nonMissing vs).length : Rat)

/-- Sum of squared deviations of `xs` from its own mean. -/
def sqDevSum (xs : List Rat) : Rat :=
  (xs.map (fun x => (x - xs.sum / (xs.length : Rat)) ^ 2)).sum

/-- `Series.std()` squared: the sample variance (`ddof=1`), NaN (`none`) when
fewer than two values are present.  The source's standard deviation is the
square root of this; both are undefined/zero/positive together. -/
def sampleVar (vs : List (Option Rat)) : Option Rat :=
  let xs := nonMissing vs
  if xs.length ≤ 1 then none else some (sqDevSum xs / ((xs.length : Rat) - 1))

/-- Ascending insertion into a sorted list of rationals. -/
def insertLe (x : Rat) : List Rat → List Rat
  | [] => [x]
  | y :: l => if x ≤ y then x :: y :: l else y :: insertLe x l

/-- Ascending insertion sort. -/
def sortRat : List Rat → List Rat
  | [] => []
  | x :: l => insertLe x (sortRat l)

/-- `Series.median()`: middle of the sorted non-missing values (mean of the
two middles for an even count), NaN (`none`) when there are none. -/
def colMedian (vs : List (Option Rat)) : Option Rat :=
  let xs := sortRat (nonMissing vs)
  let n := xs.length
  if n = 0 then none
  else if n % 2 = 1 then some (xs.getD (n / 2) 0)
  else some ((xs.getD (n / 2 - 1) 0 + xs.getD (n / 2) 0) / 2)

/-!
## KPI analyzer (`src/analysis/kpi.py`)

`KPIAnalyzer.calculate_performance_kpis` builds a dict of metrics, each
block guarded by presence of its source column(s); dict values may be NaN
(modelled `Option Rat`).  A present column of string dtype would make the
source raise on `mean()`; such tables fall outside the spec's typed-column
data model and the corresponding block is skipped here (the guard
`numColVals` asks for numeric data, which bool columns also satisfy).
`aht_std` and `qa_score_std` carry the variance representation of the
standard deviation (see the header comment).
-/

def calculate_performance_kpis (t : Table) : List (String × Option Rat) :=
  (match numColVals t "handle_time" with
   | some vs => [("aht", colMean vs), ("aht_median", colMedian vs), ("aht_std", sampleVar vs)]
   | none => []) ++
  (match numColVals t "first_call_resolution" with
   | some vs => [("fcr_rate", colMean vs)]
   | none => []) ++
  (match numColVals t "calls_offered", numColVals t "calls_answered" with
   | some off, some ans =>
      [("service_level", some (if 0 < colSum off then colSum ans / colSum off else 0))]
   | _, _ => []) ++
  (match numColVals t "logged_time", numColVals t "productive_time" with
   | some lg, some pr =>
      [("occupancy_rate", some (if 0 < colSum lg then colSum pr / colSum lg else 0))]
   | _, _ => []) ++
  (match numColVals t "scheduled_time", numColVals t "actual_time" with
   | some sc, some ac =>
      [("adherence", some (if 0 < colSum sc then colSum ac / colSum sc else 0))]
   | _, _ => [])

/-- For a nonnegative sum, the source's guard `x if s > 0 else 0` agrees with
the spec's reading `0 if s == 0 else x`. -/
theorem pos_guard_eq (s r : Rat) (h : 0 ≤ s) :
    (if 0 < s then r else 0) = (if s = 0 then 0 else r) := by
  rcases h.lt_or_eq with hlt | heq
  · rw [if_pos hlt, if_neg (by exact fun h0 => absurd h0.symm hlt.ne)]
  · rw [if_neg (by rw [← heq]; exact lt_irrefl 0), if_pos heq.symm]

/-- C1: with both `calls_offered` and `calls_answered` present (numeric, with
nonnegative offered counts as call counts are), `calculate_performance_kpis`
reports `service_level` as the ratio of the summed answered to the summed
offered calls, and exactly 0 — never a division error (the function is total)
— when the offered calls sum to 0. -/
theorem performance_kpis_service_level (t : Table) (off ans : List (Option Rat))
    (hoff : numColVals t "calls_offered" = some off)
    (hans : numColVals t "calls_answered" = some ans)
    (hnn : ∀ x ∈ nonMissing off, 0 ≤ x) :
    (calculate_performance_kpis t).lookup "service_level" =
      some (some (if colSum off = 0 then 0 else colSum ans / colSum off)) := by
  have hs : 0 ≤ colSum off := List.sum_nonneg hnn
  unfold calculate_performance_kpis
  rw [hoff, hans]
  cases h1 : numColVals t "handle_time" <;>
    cases h2 : numColVals t "first_call_resolution" <;>
      cases h4 : numColVals t "logged_time" <;>
        cases h5 : numColVals t "productive_time" <;>
          cases h6 : numColVals t "scheduled_time" <;>
            cases h7 : numColVals t "actual_time" <;>
              simp [List.lookup, pos_guard_eq _ _ hs]

/-- C1 witness: the spec's own scenario, `calls_offered = [100, 50]` and
`calls_answered = [90, 50]`. -/
theorem performance_kpis_service_level_witness :
    (calculate_performance_kpis
        { nrows := 2,
          cols := [("calls_offered", ColData.num [some 100, some 50]),
                   ("calls_answered", ColData.num [some 90, some 50])] }).lookup "service_level" =
      some (some (if colSum [some 100, some 50] = 0 then 0
                  else colSum [some 90, some 50] / colSum [some 100, some 50])) :=
  performance_kpis_service_level _ _ _ rfl rfl (by decide)

/-!
## Data cleaner (`src/data/cleaner.py`)

`DataCleaner.detect_outliers` computes, per checked numeric column,
`z_scores = np.abs((df[col] - df[col].mean()) / df[col].std())` and flags
`z_scores > outlier_std`.  In IEEE arithmetic: a missing cell gives a NaN
z-score (flag false); with fewer than two values `std()` is NaN, every
z-score is NaN (flag false); with `std() == 0` all present values equal the
mean, so every z-score is `0/0 = NaN` (flag false) — never an error.  For a
positive variance `v` and nonnegative threshold `thr` (config default 3),
`|x - m| / sqrt v > thr` iff `thr^2 * v < (x - m)^2`, the form used here.
-/

def outlierMask (vs : List (Option Rat)) (thr : Rat) : List Bool :=
  match sampleVar vs with
  | some v => vs.map (fun c => match c with
      | none => false
      | some x => decide (0 < v ∧ thr ^ 2 * v < (x - meanD vs) ^ 2))
  | none => vs.map (fun _ => false)

/-- `DataCleaner.detect_outliers`: checked columns default to all numeric
columns; a named column is skipped unless present with numeric dtype. -/
def detect_outliers (t : Table) (columns : Option (List String)) (thr : Rat) :
    List (String × List Bool) :=
  let cs := match columns with
    | none => (numericColumns t).map Prod.fst
    | some cs => cs
  cs.filterMap (fun c => (numColVals t c).map (fun vs => (c, outlierMask vs thr)))

theorem outlierMask_all_false (vs : List (Option Rat)) (thr : Rat)
    (h : sampleVar vs = none ∨ sampleVar vs = some 0) :
    ∀ b ∈ outlierMask vs thr, b = false := by
  intro b hb
  unfold outlierMask at hb
  rcases h with h | h <;> rw [h] at hb <;> rcases List.mem_map.1 hb with ⟨c, -, rfl⟩
  · rfl
  · rcases c with - | x
    · rfl
    · simp

/-- C2: a checked column whose standard deviation is zero or undefined (fewer
than two non-missing values) gets an all-false outlier mask from
`detect_outliers`; the function is total, so no division error is ever
raised. -/
theorem detect_outliers_zero_std (t : Table) (columns : Option (List String)) (thr : Rat)
    (c : String) (mask : List Bool) (vs : List (Option Rat))
    (hmem : (c, mask) ∈ detect_outliers t columns thr)
    (hvs : numColVals t c = some vs)
    (hstd : sampleVar vs = none ∨ sampleVar vs = some 0) :
    ∀ b ∈ mask, b = false := by
  unfold detect_outliers at hmem
  rcases List.mem_filterMap.1 hmem with ⟨a, -, ha⟩
  rcases Option.map_eq_some'.1 ha with ⟨vs', hvs', heq⟩
  simp only [Prod.mk.injEq] at heq
  obtain ⟨rfl, rfl⟩ := heq
  obtain rfl : vs' = vs := Option.some.inj (hvs'.symm.trans hvs)
  exact outlierMask_all_false _ thr hstd

/-- C2 witness: a one-row column (standard deviation undefined) yields the
all-false mask. -/
theorem detect_outliers_zero_std_witness :
    (("x", [false]) ∈
        detect_outliers { nrows := 1, cols := [("x", ColData.num [some 5])] } none 3)
    ∧ ∀ b ∈ [false], b = false :=
  ⟨by decide,
    detect_outliers_zero_std { nrows := 1, cols := [("x", ColData.num [some 5])] }
      none 3 "x" [false] [some 5] (by decide) rfl (Or.inl rfl)⟩

/-- `series[mask]`: keep the entries of `vs` at positions where `mask` holds,
in their original order. -/
def maskFilter (mask : List Bool) (vs : List α) : List α :=
  ((mask.zip vs).filter Prod.fst).map Prod.snd

/-- `df[mask]` applied to one column. -/
def ColData.maskRows (mask : List Bool) : ColData → ColData
  | .num vs => .num (maskFilter mask vs)
  | .cat vs => .cat (maskFilter mask vs)
  | .bool vs => .bool (maskFilter mask vs)

/-- The survivor mask of `DataCleaner.remove_outliers`:
`mask = pd.Series([True]*len(df))` then `mask &= ~outlier_mask` per checked
column. -/
def remove_outliers_mask (t : Table) (columns : Option (List String)) (thr : Rat) :
    List Bool :=
  (detect_outliers t columns thr).foldl
    (fun mask p => mask.zipWith (fun a b => a && !b) p.2)
    (List.replicate t.nrows true)

/-- `DataCleaner.remove_outliers`: `df[mask].copy()`. -/
def remove_outliers (t : Table) (columns : Option (List String)) (thr : Rat) : Table :=
  { nrows := (remove_outliers_mask t columns thr).count true,
    cols := t.cols.map (fun p => (p.1, p.2.maskRows (remove_outliers_mask t columns thr))) }

/-- Specification-side mask: row `i` survives iff no checked column flags it. -/
def keepMask (t : Table) (columns : Option (List String)) (thr : Rat) : List Bool :=
  (List.range t.nrows).map
    (fun i => decide (∀ q ∈ detect_outliers t columns thr, q.2.getD i false = false))

/-- Column-data sublist: same dtype and the values a sublist (order kept). -/
def ColSub : ColData → ColData → Prop
  | .num a, .num b => a.Sublist b
  | .cat a, .cat b => a.Sublist b
  | .bool a, .bool b => a.Sublist b
  | _, _ => False

theorem maskFilter_sublist (mask : List Bool) (vs : List α) :
    (maskFilter mask vs).Sublist vs := by
  induction mask generalizing vs with
  | nil => simp [maskFilter]
  | cons b ms ih =>
    cases vs with
    | nil => simp [maskFilter]
    | cons v vs =>
      cases b with
      | false => exact List.Sublist.cons v (ih vs)
      | true => exact List.Sublist.cons₂ v (ih vs)

theorem getCol_mem (t : Table) (c : String) (d : ColData) (h : getCol t c = some d) :
    (c, d) ∈ t.cols := by
  unfold getCol at h
  rcases Option.map_eq_some'.1 h with ⟨p, hp, rfl⟩
  have hpc : p.1 = c := by simpa using List.find?_some hp
  have := List.mem_of_find?_eq_some hp
  rwa [← hpc]

theorem getCol_length (t : Table) (hwf : t.wf) (c : String) (d : ColData)
    (h : getCol t c = some d) : d.length = t.nrows :=
  hwf (c, d) (getCol_mem t c d h)

theorem numColVals_length (t : Table) (hwf : t.wf) (c : String) (vs : List (Option Rat))
    (h : numColVals t c = some vs) : vs.length = t.nrows := by
  unfold numColVals at h
  split at h
  · cases h; exact getCol_length t hwf c _ (by assumption)
  · cases h
    simpa [ColData.length] using getCol_length t hwf c _ (by assumption)
  · cases h

theorem outlierMask_length (vs : List (Option Rat)) (thr : Rat) :
    (outlierMask vs thr).length = vs.length := by
  unfold outlierMask
  split <;> simp

theorem detect_outliers_mask_length (t : Table) (columns : Option (List String)) (thr : Rat)
    (hwf : t.wf) :
    ∀ p ∈ detect_outliers t columns thr, p.2.length = t.nrows := by
  intro p hp
  unfold detect_outliers at hp
  rcases List.mem_filterMap.1 hp with ⟨a, -, ha⟩
  rcases Option.map_eq_some'.1 ha with ⟨vs, hvs, rfl⟩
  simpa [outlierMask_length] using numColVals_length t hwf a vs hvs

theorem zipWith_getD (g : Bool → Bool → Bool) (a b : List Bool) (i : Nat)
    (ha : i < a.length) (hb : i < b.length) :
    (a.zipWith g b).getD i false = g (a.getD i false) (b.getD i false) := by
  induction a generalizing b i with
  | nil => cases ha
  | cons x xs ih =>
    cases b with
    | nil => cases hb
    | cons y ys =>
      cases i with
      | zero => rfl
      | succ n =>
        simpa [List.getD] using
          ih ys n (Nat.lt_of_succ_lt_succ ha) (Nat.lt_of_succ_lt_succ hb)

theorem foldl_andNot (f : α → List Bool) (ms : List α) (m0 : List Bool)
    (hlen : ∀ m ∈ ms, (f m).length = m0.length) :
    (ms.foldl (fun mask om => mask.zipWith (fun a b => a && !b) (f om)) m0).length = m0.length
    ∧ ∀ i, i < m0.length →
      (ms.foldl (fun mask om => mask.zipWith (fun a b => a && !b) (f om)) m0).getD i false
        = (m0.getD i false && ms.all (fun m => !(f m).getD i false)) := by
  induction ms generalizing m0 with
  | nil => simp
  | cons m ms ih =>
    have hm : (f m).length = m0.length := hlen m (List.mem_cons_self m ms)
    have hm0 : (m0.zipWith (fun a b => a && !b) (f m)).length = m0.length := by
      rw [List.length_zipWith, hm, Nat.min_self]
    have ih2 := ih (m0.zipWith (fun a b => a && !b) (f m))
      (fun m' hm' => (hlen m' (List.mem_cons_of_mem m hm')).trans hm0.symm)
    refine ⟨by simpa [hm0] using ih2.1, fun i hi => ?_⟩
    have h1 := ih2.2 i (hm0 ▸ hi)
    rw [List.foldl_cons, h1,
      zipWith_getD (fun a b => a && !b) m0 (f m) i hi (hm ▸ hi)]
    simp [Bool.and_assoc]

/-- C5: `remove_outliers` keeps exactly the rows that no checked column's
mask from `detect_outliers` flags (logical OR across columns), and each
surviving column is a sublist of the original — original relative order is
preserved. -/
theorem remove_outliers_spec (t : Table) (columns : Option (List String)) (thr : Rat)
    (hwf : t.wf) :
    remove_outliers_mask t columns thr = keepMask t columns thr
    ∧ (remove_outliers t columns thr).cols
        = t.cols.map (fun p => (p.1, p.2.maskRows (keepMask t columns thr)))
    ∧ ∀ p ∈ (remove_outliers t columns thr).cols,
        ∃ d, (p.1, d) ∈ t.cols ∧ ColSub p.2 d := by
  have hmask : remove_outliers_mask t columns thr = keepMask t columns thr := by
    have hfold := foldl_andNot Prod.snd (detect_outliers t columns thr)
      (List.replicate t.nrows true)
      (by simpa using detect_outliers_mask_length t columns thr hwf)
    have hlen1 : (remove_outliers_mask t columns thr).length = t.nrows := by
      simpa [remove_outliers_mask] using hfold.1
    have hlen2 : (keepMask t columns thr).length = t.nrows := by
      simp [keepMask]
    apply List.ext_getElem (hlen1.trans hlen2.symm)
    intro i hi1 hi2
    have hin : i < t.nrows := hlen1 ▸ hi1
    have hgd := hfold.2 i (by simpa using hin)
    rw [← List.getD_eq_getElem _ false hi1, ← List.getD_eq_getElem _ false hi2]
    have hrep : (List.replicate t.nrows true).getD i false = true := by
      rw [List.getD_eq_getElem _ false (by simpa using hin)]
      simp
    rw [show (remove_outliers_mask t columns thr).getD i false
        = ((List.replicate t.nrows true).getD i false &&
            (detect_outliers t columns thr).all (fun m => !m.2.getD i false)) from hgd,
      hrep, Bool.true_and]
    have hkeep : (keepMask t columns thr).getD i false
        = decide (∀ q ∈ detect_outliers t columns thr, q.2.getD i false = false) := by
      rw [keepMask, List.getD_eq_getElem _ false (by simpa using hin)]
      simp
    rw [hkeep, Bool.eq_iff_iff]
    simp [List.all_eq_true]
  refine ⟨hmask, ?_, ?_⟩
  · simp only [remove_outliers, hmask]
  · intro p hp
    rcases List.mem_map.1 hp with ⟨q, hq, rfl⟩
    refine ⟨q.2, by simpa using hq, ?_⟩
    cases h2 : q.2 <;> simp [ColData.maskRows, ColSub, maskFilter_sublist]

/-- C5 witness: a concrete two-column table. -/
theorem remove_outliers_spec_witness :
    remove_outliers_mask { nrows := 1, cols := [("x", ColData.num [some 5])] } none 3
      = keepMask { nrows := 1, cols := [("x", ColData.num [some 5])] } none 3
    ∧ (remove_outliers { nrows := 1, cols := [("x", ColData.num [some 5])] } none 3).cols
        = [("x", ColData.num [some 5])].map
            (fun p => (p.1, p.2.maskRows
              (keepMask { nrows := 1, cols := [("x", ColData.num [some 5])] } none 3)))
    ∧ ∀ p ∈ (remove_outliers { nrows := 1, cols := [("x", ColData.num [some 5])] } none 3).cols,
        ∃ d, (p.1, d) ∈ [("x", ColData.num [some 5])] ∧ ColSub p.2 d :=
  remove_outliers_spec { nrows := 1, cols := [("x", ColData.num [some 5])] } none 3
    (by decide)

/-!
## Statistical analyzer (`src/analysis/statistics.py`)

`StatisticalAnalyzer.detect_anomalies` with `method='zscore'` computes
`z_scores = np.abs(stats.zscore(df_copy[column].dropna()))` — a plain
ndarray over the *non-missing* values only (`scipy` z-scores use the
population variance, `ddof=0`; an all-equal column gives `0/0 = NaN`
z-scores, which compare false) — and then assigns
`df_copy['is_anomaly'] = z_scores > threshold`.  Assigning an ndarray whose
length differs from the frame's row count raises
`ValueError: Length of values does not match length of index`; that failure,
a missing column (`KeyError`), and a string column (`TypeError` inside
`zscore`) are modelled by `none`.  As in `outlierMask`, the comparison is
encoded in squared form, valid for a nonnegative threshold (default 3.0).
-/

def zscoreFlags (xs : List Rat) (threshold : Rat) : List Bool :=
  xs.map (fun x =>
    decide (0 < (xs.map (fun y => (y - xs.sum / (xs.length : Rat)) ^ 2)).sum / (xs.length : Rat)
      ∧ threshold ^ 2
          * ((xs.map (fun y => (y - xs.sum / (xs.length : Rat)) ^ 2)).sum / (xs.length : Rat))
        < (x - xs.sum / (xs.length : Rat)) ^ 2))

/-- `df_copy['is_anomaly'] = ...`: replace the column if the name exists,
append it otherwise. -/
def setCol (t : Table) (c : String) (d : ColData) : Table :=
  if t.cols.any (fun p => p.1 == c) then
    { nrows := t.nrows, cols := t.cols.map (fun p => if p.1 == c then (p.1, d) else p) }
  else { nrows := t.nrows, cols := t.cols ++ [(c, d)] }

/-- `StatisticalAnalyzer.detect_anomalies`, zscore method. -/
def detect_anomalies (t : Table) (column : String) (threshold : Rat) : Option Table :=
  match numColVals t column with
  | some vs =>
      if (zscoreFlags (nonMissing vs) threshold).length = t.nrows then
        some (setCol t "is_anomaly" (ColData.bool (zscoreFlags (nonMissing vs) threshold)))
      else none
  | none => none

theorem zscoreFlags_length (xs : List Rat) (threshold : Rat) :
    (zscoreFlags xs threshold).length = xs.length := by
  simp [zscoreFlags]

theorem nonMissing_length_le (vs : List (Option Rat)) :
    (nonMissing vs).length ≤ vs.length := by
  induction vs with
  | nil => simp [nonMissing]
  | cons c vs ih =>
    cases c <;> simp [nonMissing, List.filterMap_cons] at ih ⊢ <;> omega

theorem nonMissing_length_eq_iff (vs : List (Option Rat)) :
    (nonMissing vs).length = vs.length ↔ none ∉ vs := by
  induction vs with
  | nil => simp [nonMissing]
  | cons c vs ih =>
    have hle := nonMissing_length_le vs
    simp only [nonMissing] at hle ih ⊢
    cases c with
    | none =>
      simp only [List.filterMap_cons, id, List.length_cons, List.mem_cons]
      constructor
      · intro h; omega
      · intro h; exact absurd (Or.inl trivial) h
    | some x =>
      simp only [List.filterMap_cons, id, List.length_cons, List.mem_cons,
        add_left_inj]
      rw [ih]
      constructor
      · intro h hc
        rcases hc with hc | hc
        · cases hc
        · exact h hc
      · intro h hn; exact h (Or.inr hn)

/-- C10: the zscore path of `detectAnomalies` computes its flags over the
column's non-missing values only, so when the numeric column contains a
missing value the flag list is shorter than the table and the assignment
fails (modelled `none`); when the column has no missing value it returns
the table augmented with the boolean `is_anomaly` column. -/
theorem detect_anomalies_missing (t : Table) (column : String) (threshold : Rat)
    (vs : List (Option Rat)) (hwf : t.wf) (hvs : numColVals t column = some vs) :
    (none ∈ vs → detect_anomalies t column threshold = none)
    ∧ (none ∉ vs → detect_anomalies t column threshold
        = some (setCol t "is_anomaly" (ColData.bool (zscoreFlags (nonMissing vs) threshold)))) := by
  have hlen : vs.length = t.nrows := numColVals_length t hwf column vs hvs
  simp only [detect_anomalies, hvs]
  constructor
  · intro hmem
    have hlt : (nonMissing vs).length < vs.length := by
      rcases Nat.lt_or_ge (nonMissing vs).length vs.length with h | h
      · exact h
      · have heq := Nat.le_antisymm (nonMissing_length_le vs) h
        exact absurd ((nonMissing_length_eq_iff vs).1 heq) (fun hn => hn hmem)
    rw [if_neg]
    rw [zscoreFlags_length, ← hlen]
    omega
  · intro hnone
    rw [if_pos]
    rw [zscoreFlags_length, ← hlen]
    exact (nonMissing_length_eq_iff vs).2 hnone

/-- C10 witness: a two-row numeric column with no missing values. -/
theorem detect_anomalies_missing_witness :
    (none ∈ [some (1 : Rat), some 2] →
      detect_anomalies { nrows := 2, cols := [("v", ColData.num [some 1, some 2])] } "v" 3 = none)
    ∧ (none ∉ [some (1 : Rat), some 2] →
      detect_anomalies { nrows := 2, cols := [("v", ColData.num [some 1, some 2])] } "v" 3
        = some (setCol { nrows := 2, cols := [("v", ColData.num [some 1, some 2])] } "is_anomaly"
            (ColData.bool (zscoreFlags (nonMissing [some 1, some 2]) 3)))) :=
  detect_anomalies_missing { nrows := 2, cols := [("v", ColData.num [some 1, some 2])] }
    "v" 3 [some 1, some 2] (by decide) rfl

/-!
## Data validator (`src/data/validator.py`)
-/

/-- `DataValidator.validate_sufficient_data`: `min_data_points` comes from
the config (default 30). -/
def validate_sufficient_data (minRows : Nat) (t : Table) : Bool × String :=
  if t.nrows < minRows then
    (false, "Insufficient data: " ++ toString t.nrows
      ++ " rows (minimum: " ++ toString minRows ++ ")")
  else
    (true, "Sufficient data: " ++ toString t.nrows ++ " rows")

/-- C9: below the configured minimum row count, `validateSufficiency` returns
`false` with the descriptive message; at or above it, it returns `true`. -/
theorem validate_sufficient_data_spec (minRows : Nat) (t : Table) :
    (t.nrows < minRows → validate_sufficient_data minRows t
      = (false, "Insufficient data: " ++ toString t.nrows
          ++ " rows (minimum: " ++ toString minRows ++ ")"))
    ∧ (minRows ≤ t.nrows → (validate_sufficient_data minRows t).1 = true) := by
  constructor
  · intro h; simp [validate_sufficient_data, h]
  · intro h; simp [validate_sufficient_data, Nat.not_lt.2 h]

/-- C9 witness: the spec's scenario — `minRows = 30`, a 10-row table, and the
exact message `"Insufficient data: 10 rows (minimum: 30)"`. -/
theorem validate_sufficient_data_spec_witness :
    validate_sufficient_data 30 { nrows := 10, cols := [] }
      = (false, "Insufficient data: 10 rows (minimum: 30)") := by
  have h := (validate_sufficient_data_spec 30 { nrows := 10, cols := [] }).1 (by decide)
  rw [h]
  rfl

/-!
## Trend analysis (`src/analysis/kpi.py`, `analyze_trends`)

The source first checks `date_column not in df.columns or metric_column not
in df.columns` and raises `ValueError(f"Columns {date_column} or
{metric_column} not found")` — the spec's `ColumnNotFoundError`.  The happy
path parses dates and resamples by calendar period; datetime parsing and
calendar bucketing live outside the rational cell model, so the body is
abstracted to grouping rows by their exact date-cell key (first-occurrence
order) with the source's per-group aggregates (`mean`/`median`/`std`/
`count`; the trailing rolling mean is omitted).  That abstraction is
irrelevant to the guard, which fires before any of it.
-/

/-- The spec's error taxonomy (§7), as far as this development needs it. -/
inductive AnalysisError where
  | columnNotFound (msg : String)
deriving DecidableEq, Repr

/-- Per-period aggregate record of `analyze_trends` (std as variance, see
the header comment). -/
structure TrendStats where
  mean : Option Rat
  median : Option Rat
  var : Option Rat
  count : Nat
deriving DecidableEq, Repr

def ColData.cells (d : ColData) : List Cell :=
  (List.range d.length).map (fun i => d.cellAt i)

def trendGroups (t : Table) (dateCol metricCol : String) : List (Cell × TrendStats) :=
  match getCol t dateCol, numColVals t metricCol with
  | some dd, some vs =>
      dd.cells.dedup.map (fun k =>
        let grp := ((dd.cells.zip vs).filter (fun p => p.1 == k)).map Prod.snd
        (k, { mean := colMean grp, median := colMedian grp,
              var := sampleVar grp, count := (nonMissing grp).length }))
  | _, _ => []

/-- `KPIAnalyzer.analyze_trends` (kpi.py:200-224). -/
def analyze_trends (t : Table) (dateCol metricCol : String) :
    Except AnalysisError (List (Cell × TrendStats)) :=
  if !hasCol t dateCol || !hasCol t metricCol then
    Except.error (AnalysisError.columnNotFound
      ("Columns " ++ dateCol ++ " or " ++ metricCol ++ " not found"))
  else
    Except.ok (trendGroups t dateCol metricCol)

/-- C6: `analyzeTrends` fails with a `ColumnNotFoundError` whenever either
the date column or the metric column is absent from the table. -/
theorem analyze_trends_missing_column (t : Table) (dateCol metricCol : String)
    (h : hasCol t dateCol = false ∨ hasCol t metricCol = false) :
    analyze_trends t dateCol metricCol
      = Except.error (AnalysisError.columnNotFound
          ("Columns " ++ dateCol ++ " or " ++ metricCol ++ " not found")) := by
  unfold analyze_trends
  rcases h with h | h <;> rw [h] <;> simp

/-- C6 witness: a table with only a `date` column and a request for a
missing metric column. -/
theorem analyze_trends_missing_column_witness :
    analyze_trends { nrows := 1, cols := [("date", ColData.cat [some "d1"])] }
        "date" "aht"
      = Except.error (AnalysisError.columnNotFound
          ("Columns " ++ "date" ++ " or " ++ "aht" ++ " not found")) :=
  analyze_trends_missing_column { nrows := 1, cols := [("date", ColData.cat [some "d1"])] }
    "date" "aht" (Or.inr (by decide))

/-!
## Target comparison (`src/analysis/kpi.py`, `compare_to_targets`)

`kpi_name.replace('_avg', '').replace('_rate', '')` resolves a threshold
key; only indicators whose resolved key exists in the category's threshold
dict are compared.  `String.replace` is modelled by a fuel-structural
left-to-right non-overlapping replacement (Python semantics for the
nonempty patterns used here), so that it evaluates by kernel reduction.
-/

def replaceAux (pat rep : List Char) : Nat → List Char → List Char
  | _, [] => []
  | 0, l => l
  | fuel + 1, c :: cs =>
    if pat ≠ [] ∧ pat.isPrefixOf (c :: cs) then
      rep ++ replaceAux pat rep fuel ((c :: cs).drop pat.length)
    else c :: replaceAux pat rep fuel cs

/-- Python's `s.replace(pat, rep)` for nonempty `pat`. -/
def strReplace (s pat rep : String) : String :=
  String.mk (replaceAux pat.toList rep.toList s.toList.length s.toList)

/-- `kpi_name.replace('_avg', '').replace('_rate', '')`. -/
def stripKey (s : String) : String := strReplace (strReplace s "_avg" "") "_rate" ""

structure Comparison where
  actual : Rat
  target : Rat
  delta : Rat
  pct_delta : Rat
  meets_target : Bool
deriving DecidableEq, Repr

/-- The record built for one indicator: `delta = value - target`,
`pct_delta = delta / target * 100` guarded to 0 for a zero target, and
`meets_target = value >= target`. -/
def mkComparison (value target : Rat) : Comparison :=
  { actual := value, target := target, delta := value - target,
    pct_delta := if target = 0 then 0 else (value - target) / target * 100,
    meets_target := decide (target ≤ value) }

/-- `KPIAnalyzer.compare_to_targets`; `thresholds` is the config's
`kpi_thresholds` mapping, `kpiType` the category name. -/
def compare_to_targets (thresholds : List (String × List (String × Rat)))
    (kpis : List (String × Rat)) (kpiType : String) : List (String × Comparison) :=
  kpis.filterMap (fun p =>
    (((thresholds.lookup kpiType).getD []).lookup (stripKey p.1)).map
      (fun target => (p.1, mkComparison p.2 target)))

/-- C7: `compareToTargets` includes exactly the indicators whose
suffix-stripped name is a key of the matching threshold category — never a
fabricated threshold — and reports `delta = value - target`, a percentage
delta that is 0 when the target is 0, and `meets_target` iff
`value >= target`. -/
theorem compare_to_targets_spec (thresholds : List (String × List (String × Rat)))
    (kpis : List (String × Rat)) (kpiType : String) :
    (∀ p ∈ compare_to_targets thresholds kpis kpiType,
        ∃ v, (p.1, v) ∈ kpis
          ∧ ∃ tv, ((thresholds.lookup kpiType).getD []).lookup (stripKey p.1) = some tv
          ∧ p.2 = mkComparison v tv
          ∧ p.2.delta = v - tv
          ∧ (tv = 0 → p.2.pct_delta = 0)
          ∧ p.2.meets_target = decide (tv ≤ v))
    ∧ (∀ q ∈ kpis, ∀ tv,
        ((thresholds.lookup kpiType).getD []).lookup (stripKey q.1) = some tv →
        (q.1, mkComparison q.2 tv) ∈ compare_to_targets thresholds kpis kpiType) := by
  constructor
  · intro p hp
    rcases List.mem_filterMap.1 hp with ⟨q, hq, hmap⟩
    rcases Option.map_eq_some'.1 hmap with ⟨tv, htv, heq⟩
    subst heq
    refine ⟨q.2, by simpa using hq, tv, by simpa using htv, rfl, rfl, ?_, rfl⟩
    intro h0
    simp [mkComparison, h0]
  · intro q hq tv htv
    refine List.mem_filterMap.2 ⟨q, hq, ?_⟩
    rw [htv]
    rfl

/-- C7 witness: `aht` resolves to a threshold (and is compared); applying
the inclusion direction at a concrete mapping. -/
theorem compare_to_targets_spec_witness :
    ("aht", mkComparison 250 300) ∈
      compare_to_targets [("performance", [("aht", 300), ("service_level", 1)])]
        [("aht", 250), ("mystery", 1)] "performance" :=
  (compare_to_targets_spec [("performance", [("aht", 300), ("service_level", 1)])]
      [("aht", 250), ("mystery", 1)] "performance").2
    ("aht", 250) (by decide) 300 (by decide)

/-!
## Quality report (`src/data/validator.py`, `check_data_quality`)

`check_data_quality` is a straight-line total computation over the frame —
it has no failure path (the spec's "always succeeds").  Per numeric column
it records `mean/median/std/min/max`, all pandas reductions that skip NaN
and return NaN on an empty (all-missing) column, modelled `none`; the std
is carried as the variance (header comment).  `missing_percentage` divides
by `len(df)`, which for an empty frame is NaN-valued in the source
(`0/0`), modelled `none`; no error is raised either way.
-/

structure NumStats where
  mean : Option Rat
  median : Option Rat
  var : Option Rat
  min : Option Rat
  max : Option Rat
deriving DecidableEq, Repr

def numStatsOf (vs : List (Option Rat)) : NumStats :=
  { mean := colMean vs, median := colMedian vs, var := sampleVar vs,
    min := (nonMissing vs).min?, max := (nonMissing vs).max? }

/-- `df.isnull().sum()` for one column (a bool column is never null). -/
def missingCount : ColData → Nat
  | .num vs => vs.count none
  | .cat vs => vs.count none
  | .bool _ => 0

def rowAt (t : Table) (i : Nat) : List Cell := t.cols.map (fun p => p.2.cellAt i)

/-- `df.duplicated().sum()`: rows equal to some earlier row (pandas treats
NaN as equal to NaN here, as does `Option` equality). -/
def dupCountAux : List (List Cell) → List (List Cell) → Nat
  | _, [] => 0
  | seen, r :: rest => (if r ∈ seen then 1 else 0) + dupCountAux (r :: seen) rest

def dupCount (t : Table) : Nat :=
  dupCountAux [] ((List.range t.nrows).map (fun i => rowAt t i))

structure QualityReport where
  total_rows : Nat
  total_columns : Nat
  missing_values : List (String × Nat)
  missing_percentage : List (String × Option Rat)
  duplicate_rows : Nat
  numeric_columns : List String
  categorical_columns : List String
  numeric_stats : List (String × NumStats)
deriving DecidableEq, Repr

/-- `DataValidator.check_data_quality` (validator.py:107-146). -/
def check_data_quality (t : Table) : QualityReport :=
  { total_rows := t.nrows,
    total_columns := t.cols.length,
    missing_values := t.cols.map (fun p => (p.1, missingCount p.2)),
    missing_percentage := t.cols.map (fun p =>
      (p.1, if t.nrows = 0 then none
            else some (((missingCount p.2 : Rat) / (t.nrows : Rat)) * 100))),
    duplicate_rows := dupCount t,
    numeric_columns := (numericColumns t).map Prod.fst,
    categorical_columns := t.cols.filterMap (fun p => match p.2 with
      | .cat _ => some p.1
      | _ => none),
    numeric_stats := (numericColumns t).map (fun p => (p.1, numStatsOf p.2)) }

theorem nonMissing_map_some (l : List Rat) : nonMissing (l.map some) = l := by
  simp [nonMissing, List.filterMap_map]

/-- C8: `checkQuality` (a total function — it never raises) reports, for
every numeric column, statistics that depend only on the column's
non-missing values, and for a column with no numeric values all five
statistics are absent (`none`), not zero. -/
theorem check_data_quality_numeric_stats (t : Table) (c : String) (vs : List (Option Rat))
    (h : (c, ColData.num vs) ∈ t.cols) :
    (c, numStatsOf vs) ∈ (check_data_quality t).numeric_stats
    ∧ numStatsOf vs = numStatsOf ((nonMissing vs).map some)
    ∧ (nonMissing vs = [] → numStatsOf vs
        = { mean := none, median := none, var := none, min := none, max := none }) := by
  refine ⟨?_, ?_, ?_⟩
  · exact List.mem_map.2 ⟨(c, vs), List.mem_filterMap.2 ⟨(c, ColData.num vs), h, rfl⟩, rfl⟩
  · simp only [numStatsOf, colMean, colMedian, sampleVar, nonMissing_map_some]
  · intro hempty
    simp [numStatsOf, colMean, colMedian, sampleVar, hempty, sortRat]

/-- C8 witness: an all-missing numeric column reports absent statistics. -/
theorem check_data_quality_numeric_stats_witness :
    ((("a", numStatsOf [none]) ∈
        (check_data_quality { nrows := 1, cols := [("a", ColData.num [none])] }).numeric_stats)
    ∧ numStatsOf [none] = numStatsOf ((nonMissing [none]).map some)
    ∧ (nonMissing [none] = [] → numStatsOf [none]
        = { mean := none, median := none, var := none, min := none, max := none })) :=
  check_data_quality_numeric_stats { nrows := 1, cols := [("a", ColData.num [none])] }
    "a" [none] (by decide)

/-!
## Correlation analyzer (`src/analysis/correlation.py`)

`calculate_correlation_matrix` is `df.select_dtypes(np.number).corr()`,
i.e. pandas `nancorr`: for each column pair it takes the rows where both
cells are non-missing, and computes `r = sxy / sqrt(sxx * syy)` where
`sxx, syy, sxy` are the (co)deviation sums about the pairwise means; the
entry is NaN when no complete pair exists (`min_periods = 1`) or the
divisor is 0 (a constant or single-observation column) — pandas does *not*
force the diagonal to 1.  Since `sqrt` leaves `Rat`, an entry stores the
signed square `r * |r| = sxy * |sxy| / (sxx * syy)`.  The map `r ↦ r * |r|`
is a strictly monotone injection, so equality, symmetry, and `r = 1`
(`repr = 1`) transfer faithfully; NaN entries are `none`.
-/

/-- Rows where both cells are present (pandas pairwise NaN handling). -/
def pearsonPairs (xs ys : List (Option Rat)) : List (Rat × Rat) :=
  (xs.zip ys).filterMap (fun p => match p.1, p.2 with
    | some x, some y => some (x, y)
    | _, _ => none)

def pMeanX (ps : List (Rat × Rat)) : Rat := (ps.map Prod.fst).sum / (ps.length : Rat)

def pMeanY (ps : List (Rat × Rat)) : Rat := (ps.map Prod.snd).sum / (ps.length : Rat)

def pSxx (ps : List (Rat × Rat)) : Rat := (ps.map (fun p => (p.1 - pMeanX ps) ^ 2)).sum

def pSyy (ps : List (Rat × Rat)) : Rat := (ps.map (fun p => (p.2 - pMeanY ps) ^ 2)).sum

def pSxy (ps : List (Rat × Rat)) : Rat :=
  (ps.map (fun p => (p.1 - pMeanX ps) * (p.2 - pMeanY ps))).sum

/-- The signed square `r * |r|` of the Pearson coefficient of two columns;
`none` where pandas produces NaN. -/
def pearsonRepr (xs ys : List (Option Rat)) : Option Rat :=
  if (pearsonPairs xs ys).length = 0 then none
  else if pSxx (pearsonPairs xs ys) * pSyy (pearsonPairs xs ys) = 0 then none
  else some (pSxy (pearsonPairs xs ys) * |pSxy (pearsonPairs xs ys)|
      / (pSxx (pearsonPairs xs ys) * pSyy (pearsonPairs xs ys)))

structure CorrMatrix where
  names : List String
  entries : List (List (Option Rat))
deriving DecidableEq, Repr

/-- `CorrelationAnalyzer.calculate_correlation_matrix` (pearson). -/
def calculate_correlation_matrix (t : Table) : CorrMatrix :=
  { names := (numericColumns t).map Prod.fst,
    entries := (numericColumns t).map (fun ci =>
      (numericColumns t).map (fun cj => pearsonRepr ci.2 cj.2)) }

/-- `corr_matrix.iloc[i, j]`; out-of-range reads are `none`. -/
def CorrMatrix.entryAt (M : CorrMatrix) (i j : Nat) : Option Rat :=
  (M.entries.getD i []).getD j none

theorem pearsonPairs_swap (xs ys : List (Option Rat)) :
    pearsonPairs ys xs = (pearsonPairs xs ys).map Prod.swap := by
  unfold pearsonPairs
  rw [← List.zip_swap xs ys, List.filterMap_map, List.map_filterMap]
  congr 1
  funext p
  rcases p with ⟨a, b⟩
  cases a <;> cases b <;> rfl

theorem pMean_swap (ps : List (Rat × Rat)) :
    pMeanX (ps.map Prod.swap) = pMeanY ps ∧ pMeanY (ps.map Prod.swap) = pMeanX ps := by
  constructor
  · unfold pMeanX pMeanY
    have h1 : List.map (Prod.fst ∘ Prod.swap) ps = List.map Prod.snd ps :=
      List.map_congr_left (fun p _ => rfl)
    rw [List.map_map, List.length_map, h1]
  · unfold pMeanX pMeanY
    have h1 : List.map (Prod.snd ∘ Prod.swap) ps = List.map Prod.fst ps :=
      List.map_congr_left (fun p _ => rfl)
    rw [List.map_map, List.length_map, h1]

theorem pS_swap (ps : List (Rat × Rat)) :
    pSxx (ps.map Prod.swap) = pSyy ps ∧ pSyy (ps.map Prod.swap) = pSxx ps
    ∧ pSxy (ps.map Prod.swap) = pSxy ps := by
  refine ⟨?_, ?_, ?_⟩
  · unfold pSxx pSyy
    rw [(pMean_swap ps).1, List.map_map]
    exact congrArg List.sum (List.map_congr_left (fun p _ => rfl))
  · unfold pSxx pSyy
    rw [(pMean_swap ps).2, List.map_map]
    exact congrArg List.sum (List.map_congr_left (fun p _ => rfl))
  · unfold pSxy
    rw [(pMean_swap ps).1, (pMean_swap ps).2, List.map_map]
    refine congrArg List.sum (List.map_congr_left ?_)
    intro p hp
    exact mul_comm _ _

theorem pearsonRepr_comm (xs ys : List (Option Rat)) :
    pearsonRepr ys xs = pearsonRepr xs ys := by
  unfold pearsonRepr
  rw [pearsonPairs_swap, List.length_map,
    (pS_swap (pearsonPairs xs ys)).1, (pS_swap (pearsonPairs xs ys)).2.1,
    (pS_swap (pearsonPairs xs ys)).2.2,
    mul_comm (pSyy (pearsonPairs xs ys)) (pSxx (pearsonPairs xs ys))]

theorem pearsonPairs_self (xs : List (Option Rat)) :
    pearsonPairs xs xs = (nonMissing xs).map (fun x => (x, x)) := by
  induction xs with
  | nil => rfl
  | cons c xs ih =>
    cases c <;> simp [pearsonPairs, nonMissing, List.zip_cons_cons,
      List.filterMap_cons] at ih ⊢ <;> exact ih

theorem sum_nonneg_all_zero (l : List Rat) (h : ∀ x ∈ l, 0 ≤ x) (hs : l.sum = 0) :
    ∀ x ∈ l, x = 0 := by
  induction l with
  | nil => simp
  | cons a l ih =>
    have ha : 0 ≤ a := h a (List.mem_cons_self a l)
    have hl : 0 ≤ l.sum := List.sum_nonneg (fun x hx => h x (List.mem_cons_of_mem a hx))
    rw [List.sum_cons] at hs
    have ha0 : a = 0 := le_antisymm (by linarith) ha
    have hs0 : l.sum = 0 := by linarith
    intro x hx
    rcases List.mem_cons.1 hx with rfl | hx
    · exact ha0
    · exact ih (fun y hy => h y (List.mem_cons_of_mem a hy)) hs0 x hx

theorem pearsonRepr_self (xs : List (Option Rat))
    (hdist : ∃ x ∈ nonMissing xs, ∃ y ∈ nonMissing xs, x ≠ y) :
    pearsonRepr xs xs = some 1 := by
  obtain ⟨x, hx, y, hy, hxy⟩ := hdist
  unfold pearsonRepr
  rw [pearsonPairs_self]
  set ds := nonMissing xs with hds
  set ps := ds.map (fun x => (x, x)) with hps
  have hfst : ps.map Prod.fst = ds := by
    rw [hps, List.map_map]
    exact (List.map_congr_left (fun z _ => rfl)).trans (List.map_id ds)
  have hsnd : ps.map Prod.snd = ds := by
    rw [hps, List.map_map]
    exact (List.map_congr_left (fun z _ => rfl)).trans (List.map_id ds)
  have hmxy : pMeanX ps = pMeanY ps := by
    simp [pMeanX, pMeanY, hfst, hsnd]
  have hS : pSxx ps = pSyy ps ∧ pSxx ps = pSxy ps := by
    constructor
    · simp [pSxx, pSyy, hmxy]
      refine congrArg List.sum (List.map_congr_left ?_)
      intro p hp
      rcases List.mem_map.1 (hps ▸ hp) with ⟨z, -, rfl⟩
      rfl
    · simp [pSxx, pSxy, sq]
      refine congrArg List.sum (List.map_congr_left ?_)
      intro p hp
      rcases List.mem_map.1 (hps ▸ hp) with ⟨z, -, rfl⟩
      simp [hmxy]
  have hterms : ∀ q ∈ ps.map (fun p => (p.1 - pMeanX ps) ^ 2), 0 ≤ q := by
    intro q hq
    rcases List.mem_map.1 hq with ⟨p, -, rfl⟩
    exact sq_nonneg _
  have hSnn : 0 ≤ pSxx ps := List.sum_nonneg hterms
  have hSpos : pSxx ps ≠ 0 := by
    intro h0
    have hall := sum_nonneg_all_zero _ hterms h0
    have hxm : x - pMeanX ps = 0 := by
      have := hall ((x - pMeanX ps) ^ 2)
        (List.mem_map.2 ⟨(x, x), List.mem_map.2 ⟨x, hx, rfl⟩, rfl⟩)
      exact pow_eq_zero_iff (n := 2) (by omega) |>.1 this
    have hym : y - pMeanX ps = 0 := by
      have := hall ((y - pMeanX ps) ^ 2)
        (List.mem_map.2 ⟨(y, y), List.mem_map.2 ⟨y, hy, rfl⟩, rfl⟩)
      exact pow_eq_zero_iff (n := 2) (by omega) |>.1 this
    exact hxy (by linarith)
  have hn : ps.length ≠ 0 := by
    have : x ∈ ds := hx
    simp only [hps, List.length_map]
    intro hlen
    rw [List.length_eq_zero.1 hlen] at this
    cases this
  rw [if_neg hn, if_neg (by rw [← hS.1]; exact mul_ne_zero hSpos hSpos),
    ← hS.1, ← hS.2, abs_of_nonneg hSnn]
  congr 1
  field_simp

/-- C3 (amended): the correlation matrix is symmetric at every index pair,
and its diagonal entry is exactly 1 for every numeric column having two
distinct non-missing values; for a constant (or empty, or singleton)
column the diagonal entry is NaN, not 1. -/
theorem correlation_matrix_symm_diag (t : Table) (i j : Nat) :
    (calculate_correlation_matrix t).entryAt i j
      = (calculate_correlation_matrix t).entryAt j i
    ∧ (∀ nm vs, (numericColumns t).get? i = some (nm, vs) →
        (∃ x ∈ nonMissing vs, ∃ y ∈ nonMissing vs, x ≠ y) →
        (calculate_correlation_matrix t).entryAt i i = some 1) := by
  have hgd : ∀ {α β : Type} (f : α → β) (l : List α) (i : Nat) (d : β),
      (l.map f).getD i d = match l.get? i with | some a => f a | none => d := by
    intro α β f l i d
    rw [List.getD_eq_getD_get?, List.get?_map]
    cases l.get? i <;> rfl
  have hcase : ∀ a b : Nat, (calculate_correlation_matrix t).entryAt a b =
      match (numericColumns t).get? a, (numericColumns t).get? b with
      | some ci, some cj => pearsonRepr ci.2 cj.2
      | _, _ => none := by
    intro a b
    simp only [CorrMatrix.entryAt, calculate_correlation_matrix]
    rw [hgd]
    cases ha : (numericColumns t).get? a with
    | none => cases hb : (numericColumns t).get? b <;> rfl
    | some ci =>
      rw [hgd]
      cases hb : (numericColumns t).get? b <;> rfl
  constructor
  · rw [hcase i j, hcase j i]
    cases hi : (numericColumns t).get? i <;> cases hj : (numericColumns t).get? j <;>
      simp [pearsonRepr_comm]
  · intro nm vs hvs hdist
    rw [hcase i i, hvs]
    exact pearsonRepr_self vs hdist

/-- C3 witness: a two-valued column has diagonal exactly 1, and symmetry at
(0, 0). -/
theorem correlation_matrix_symm_diag_witness :
    ((calculate_correlation_matrix
        { nrows := 2, cols := [("a", ColData.num [some 0, some 1])] }).entryAt 0 0
      = (calculate_correlation_matrix
        { nrows := 2, cols := [("a", ColData.num [some 0, some 1])] }).entryAt 0 0)
    ∧ (∀ nm vs,
        (numericColumns { nrows := 2, cols := [("a", ColData.num [some 0, some 1])] }).get? 0
          = some (nm, vs) →
        (∃ x ∈ nonMissing vs, ∃ y ∈ nonMissing vs, x ≠ y) →
        (calculate_correlation_matrix
          { nrows := 2, cols := [("a", ColData.num [some 0, some 1])] }).entryAt 0 0
          = some 1) :=
  correlation_matrix_symm_diag
    { nrows := 2, cols := [("a", ColData.num [some 0, some 1])] } 0 0

/-- C3 counterexample: for a constant numeric column pandas `corr()` yields
a NaN diagonal entry (zero divisor), not 1.0 — the claim as stated fails on
the table with the single column `a = [1, 1, 1]`. -/
theorem correlation_matrix_diag_counterexample :
    (calculate_correlation_matrix
        { nrows := 3, cols := [("a", ColData.num [some 2, some 2, some 2])] }).entryAt 0 0
      ≠ some 1 := by
  have hentry : (calculate_correlation_matrix
      { nrows := 3, cols := [("a", ColData.num [some 2, some 2, some 2])] }).entryAt 0 0
      = pearsonRepr [some 2, some 2, some 2] [some 2, some 2, some 2] := rfl
  have hps : pearsonPairs [some (2 : Rat), some 2, some 2] [some 2, some 2, some 2]
      = [(2, 2), (2, 2), (2, 2)] := rfl
  have hm : pMeanX [((2 : Rat), (2 : Rat)), (2, 2), (2, 2)] = 2 := by
    norm_num [pMeanX, List.map_cons, List.map_nil, List.sum_cons, List.sum_nil]
  have hsxx : pSxx [((2 : Rat), (2 : Rat)), (2, 2), (2, 2)] = 0 := by
    norm_num [pSxx, hm, List.map_cons, List.map_nil, List.sum_cons, List.sum_nil]
  rw [hentry]
  unfold pearsonRepr
  rw [hps, if_neg (by norm_num), if_pos (by rw [hsxx, zero_mul])]
  exact fun h => Option.noConfusion h

/-!
## Strong correlations (`src/analysis/correlation.py`, lines 40-74)

`find_strong_correlations` walks the upper triangle row-major
(`i < j`), keeps pairs with `abs(corr) >= threshold` (a NaN coefficient
compares false and is skipped), and sorts descending by absolute value
(`list.sort` is stable, modelled by a stable insertion sort).
-/

def insertAbsDesc (a : String × String × Rat) :
    List (String × String × Rat) → List (String × String × Rat)
  | [] => [a]
  | b :: l => if |b.2.2| < |a.2.2| then a :: b :: l else b :: insertAbsDesc a l

def sortByAbsDesc : List (String × String × Rat) → List (String × String × Rat)
  | [] => []
  | a :: l => insertAbsDesc a (sortByAbsDesc l)

/-- The row-major upper-triangle traversal `for i; for j in range(i+1, n)`. -/
def upperPairs (M : CorrMatrix) : List (String × String × Option Rat) :=
  (List.range M.names.length).bind (fun i =>
    (List.range' (i + 1) (M.names.length - (i + 1))).map (fun j =>
      (M.names.getD i "", M.names.getD j "", M.entryAt i j)))

/-- `CorrelationAnalyzer.find_strong_correlations`. -/
def find_strong_correlations (M : CorrMatrix) (threshold : Rat) :
    List (String × String × Rat) :=
  sortByAbsDesc ((upperPairs M).filterMap (fun p =>
    match p.2.2 with
    | some v => if threshold ≤ |v| then some (p.1, p.2.1, v) else none
    | none => none))

theorem mem_insertAbsDesc (a x : String × String × Rat) (l : List (String × String × Rat)) :
    x ∈ insertAbsDesc a l ↔ x = a ∨ x ∈ l := by
  induction l with
  | nil => simp [insertAbsDesc]
  | cons b l ih =>
    rw [insertAbsDesc]
    split
    · simp [List.mem_cons]
    · rw [List.mem_cons, ih, List.mem_cons]
      tauto

theorem length_insertAbsDesc (a : String × String × Rat) (l : List (String × String × Rat)) :
    (insertAbsDesc a l).length = l.length + 1 := by
  induction l with
  | nil => rfl
  | cons b l ih =>
    rw [insertAbsDesc]
    split <;> simp [ih]

theorem length_sortByAbsDesc (l : List (String × String × Rat)) :
    (sortByAbsDesc l).length = l.length := by
  induction l with
  | nil => rfl
  | cons a l ih => rw [sortByAbsDesc, length_insertAbsDesc, ih, List.length_cons]

theorem mem_sortByAbsDesc (x : String × String × Rat) (l : List (String × String × Rat)) :
    x ∈ sortByAbsDesc l ↔ x ∈ l := by
  induction l with
  | nil => simp [sortByAbsDesc]
  | cons a l ih => rw [sortByAbsDesc, mem_insertAbsDesc, ih, List.mem_cons]

theorem pairwise_insertAbsDesc (a : String × String × Rat) (l : List (String × String × Rat))
    (h : l.Pairwise (fun x y => |y.2.2| ≤ |x.2.2|)) :
    (insertAbsDesc a l).Pairwise (fun x y => |y.2.2| ≤ |x.2.2|) := by
  induction l with
  | nil => simp [insertAbsDesc]
  | cons b l ih =>
    rw [insertAbsDesc]
    cases h with
    | cons hb hl =>
      split
      case isTrue hlt =>
        refine List.Pairwise.cons ?_ (List.Pairwise.cons hb hl)
        intro x hx
        rcases List.mem_cons.1 hx with rfl | hx
        · exact le_of_lt hlt
        · exact le_trans (hb x hx) (le_of_lt hlt)
      case isFalse hge =>
        refine List.Pairwise.cons ?_ (ih hl)
        intro x hx
        rcases (mem_insertAbsDesc a x l).1 hx with rfl | hx
        · exact not_lt.1 hge
        · exact hb x hx

theorem sortByAbsDesc_sorted (l : List (String × String × Rat)) :
    (sortByAbsDesc l).Pairwise (fun x y => |y.2.2| ≤ |x.2.2|) := by
  induction l with
  | nil => simp [sortByAbsDesc]
  | cons a l ih => exact pairwise_insertAbsDesc a (sortByAbsDesc l) ih

theorem filterMap_length_mono {α β : Type} (f g : α → Option β) (l : List α)
    (h : ∀ x b, g x = some b → ∃ c, f x = some c) :
    (l.filterMap g).length ≤ (l.filterMap f).length := by
  induction l with
  | nil => simp
  | cons a l ih =>
    rw [List.filterMap_cons, List.filterMap_cons]
    cases hga : g a with
    | none =>
      cases hfa : f a
      · exact ih
      · simp only [List.length_cons]
        omega
    | some b =>
      rcases h a b hga with ⟨c, hfa⟩
      rw [hfa]
      simpa using ih

/-- C4: every pair returned by `strongCorrelations(M, t)` comes from a
strict upper-triangle position with `|coefficient| >= t` (distinct columns
when the matrix's column names are distinct, as a correlation matrix's
are); the result is sorted descending by absolute magnitude; and raising
the threshold never enlarges the result. -/
theorem find_strong_correlations_spec (M : CorrMatrix) (t t' : Rat) (htt : t ≤ t') :
    (∀ p ∈ find_strong_correlations M t,
        t ≤ |p.2.2|
        ∧ ∃ i j, i < j ∧ j < M.names.length
            ∧ p.1 = M.names.getD i ""
            ∧ p.2.1 = M.names.getD j ""
            ∧ M.entryAt i j = some p.2.2)
    ∧ (M.names.Nodup → ∀ p ∈ find_strong_correlations M t, p.1 ≠ p.2.1)
    ∧ (find_strong_correlations M t).Pairwise (fun x y => |y.2.2| ≤ |x.2.2|)
    ∧ (find_strong_correlations M t').length ≤ (find_strong_correlations M t).length := by
  have hA : ∀ p ∈ find_strong_correlations M t,
      t ≤ |p.2.2|
      ∧ ∃ i j, i < j ∧ j < M.names.length
          ∧ p.1 = M.names.getD i ""
          ∧ p.2.1 = M.names.getD j ""
          ∧ M.entryAt i j = some p.2.2 := by
    intro p hp
    rw [find_strong_correlations, mem_sortByAbsDesc] at hp
    rcases List.mem_filterMap.1 hp with ⟨q, hq, hmatch⟩
    rcases List.mem_bind.1 hq with ⟨i, hi, hq2⟩
    rcases List.mem_map.1 hq2 with ⟨j, hj, rfl⟩
    have hi' : i < M.names.length := List.mem_range.1 hi
    have hj' : i + 1 ≤ j ∧ j < i + 1 + (M.names.length - (i + 1)) := List.mem_range'_1.1 hj
    have hjlt : j < M.names.length := by omega
    cases hv : M.entryAt i j with
    | none => rw [hv] at hmatch; cases hmatch
    | some v =>
      rw [hv] at hmatch
      simp only at hmatch
      split at hmatch
      case isTrue hle =>
        cases hmatch
        exact ⟨hle, i, j, by omega, hjlt, rfl, rfl, hv⟩
      case isFalse => cases hmatch
  refine ⟨hA, ?_, ?_, ?_⟩
  · intro hnd p hp
    rcases hA p hp with ⟨-, i, j, hij, hjlt, h1, h2, -⟩
    rw [h1, h2]
    have hilt : i < M.names.length := lt_trans hij hjlt
    rw [List.getD_eq_getElem _ _ hilt, List.getD_eq_getElem _ _ hjlt]
    intro heq
    exact absurd ((List.Nodup.getElem_inj_iff hnd).1 heq) (Nat.ne_of_lt hij)
  · exact sortByAbsDesc_sorted _
  · rw [find_strong_correlations, find_strong_correlations,
      length_sortByAbsDesc, length_sortByAbsDesc]
    refine filterMap_length_mono _ _ _ ?_
    intro x b hx
    cases hv : x.2.2 with
    | none => rw [hv] at hx; cases hx
    | some v =>
      rw [hv] at hx
      simp only at hx
      split at hx
      case isTrue hle =>
        exact ⟨(x.1, x.2.1, v), by simp only [hv]; rw [if_pos (le_trans htt hle)]⟩
      case isFalse => cases hx

/-- C4 witness: a 2×2 identity-like matrix with thresholds 0 and 1. -/
theorem find_strong_correlations_spec_witness :
    (∀ p ∈ find_strong_correlations
        { names := ["a", "b"], entries := [[some 1, some 0], [some 0, some 1]] } 0,
        (0 : Rat) ≤ |p.2.2|
        ∧ ∃ i j, i < j ∧ j < (["a", "b"] : List String).length
            ∧ p.1 = (["a", "b"] : List String).getD i ""
            ∧ p.2.1 = (["a", "b"] : List String).getD j ""
            ∧ CorrMatrix.entryAt
                { names := ["a", "b"], entries := [[some 1, some 0], [some 0, some 1]] } i j
              = some p.2.2)
    ∧ ((["a", "b"] : List String).Nodup →
        ∀ p ∈ find_strong_correlations
          { names := ["a", "b"], entries := [[some 1, some 0], [some 0, some 1]] } 0,
          p.1 ≠ p.2.1)
    ∧ (find_strong_correlations
        { names := ["a", "b"], entries := [[some 1, some 0], [some 0, some 1]] } 0).Pairwise
        (fun x y => |y.2.2| ≤ |x.2.2|)
    ∧ (find_strong_correlations
          { names := ["a", "b"], entries := [[some 1, some 0], [some 0, some 1]] } 1).length
        ≤ (find_strong_correlations
          { names := ["a", "b"], entries := [[some 1, some 0], [some 0, some 1]] } 0).length :=
  find_strong_correlations_spec
    { names := ["a", "b"], entries := [[some 1, some 0], [some 0, some 1]] } 0 1 (by decide)

end CallCenter
